import Mathlib

/-!
Verification of the NCLEX-311 extraction pipeline core.

Shallow embedding of the two algorithmically interesting subsystems of the
repository:

* `src/scripts/enhanced_image_extraction.py` — the content classifier
  (`EnhancedQuestionClassifier.classify`), the image–topic associator
  (`ImageExtractor.associate_images_with_topics`,
  `ImageExtractor._topic_mentions_visuals`), and the validation aggregator
  (`enhanced_validation`);
* `src/python/scripts/extract_images_comprehensive.py` — the region-detector
  filtering stage (`PDFImageExtractor._detect_image_like_regions`);
* `src/python/scripts/analyze_extracted_images.py` — the image quality scorer
  (`analyze_image_content`).

Modelling conventions:
* Python ints are `Int`/`Nat`; Python floats appearing as pixel statistics or
  scores are exact rationals (`ℚ`); the classifier weight constants
  (0.9, 0.3, …, all multiples of 0.1) are represented exactly in tenths as
  `Nat` so the arithmetic is exact and executable.
* In-place mutation of the shared image objects by the associator is modelled
  by threading the image list through the topic loop; a topic's `images` list
  stores the `image_id`s of the associated image objects (the source stores
  the mutable objects themselves, whose identity is their id).
* Python dictionaries returned as results become structures with `Option`
  fields for keys that may be absent; `try/except` bodies take an
  `Except String` input describing whether the external decode succeeded.
* The regular-expression patterns of the classifier are hand-compiled to
  character-list scanners with Python `re.search`/`re.findall` semantics
  (leftmost match, greedy with minimal backtracking, `.` not matching a
  newline, `(?i)` via ASCII lowering); each scanner records the pattern it
  implements.
-/

/-! ### Character and string scanning primitives -/

/-- ASCII lowering, the behaviour of Python `str.lower` on the ASCII texts the
pipeline handles (used for `(?i)` regex flags and `content.lower()`). -/
def asciiLower (c : Char) : Char :=
  if 'A' ≤ c && c ≤ 'Z' then Char.ofNat (c.toNat + 32) else c

/-- Lower a character list (Python `text.lower()`). -/
def lowerChars (s : List Char) : List Char := s.map asciiLower

/-- Python `\s` on ASCII: space, tab, newline, carriage return, vertical tab,
form feed. -/
def isPyWhite (c : Char) : Bool :=
  c = ' ' || c = '\t' || c = '\n' || c = '\r' || c = '\x0b' || c = '\x0c'

/-- Does `needle` occur literally at the head of `hay`? -/
def charsStart : List Char → List Char → Bool
  | [], _ => true
  | _ :: _, [] => false
  | n :: ns, h :: hs => n == h && charsStart ns hs

/-- Case-insensitive version of `charsStart`; the needle is pre-lowered. -/
def charsStartCI : List Char → List Char → Bool
  | [], _ => true
  | _ :: _, [] => false
  | n :: ns, h :: hs => n == asciiLower h && charsStartCI ns hs

/-- Does `needle` occur anywhere in `hay` (Python `needle in hay`)? -/
def charsInfix (needle : List Char) : List Char → Bool
  | [] => needle.isEmpty
  | h :: hs => charsStart needle (h :: hs) || charsInfix needle hs

/-- Does `b` occur in the list with no newline before its occurrence?  This is
regex `.*b` continuing from the current position (`.` does not match `\n`). -/
def nlFreeFind (b : List Char) : List Char → Bool
  | [] => b.isEmpty
  | c :: cs => charsStart b (c :: cs) || (c != '\n' && nlFreeFind b cs)

/-- `re.search` driver: try a head-anchored matcher at every suffix. -/
def searchB (here : List Char → Bool) : List Char → Bool
  | [] => here []
  | c :: cs => here (c :: cs) || searchB here cs

/-- `re.search` driver returning the leftmost capture of a head-anchored
capturing matcher. -/
def searchOpt {α : Type} (here : List Char → Option α) : List Char → Option α
  | [] => here []
  | c :: cs =>
      match here (c :: cs) with
      | some r => some r
      | none => searchOpt here cs

/-! ### Data model (dataclasses of `enhanced_image_extraction.py`) -/

/-- Dataclass `ExtractedImage` (lines 53–62): an extracted image with metadata.
`bbox` entries are the float coordinates from the partitioning service. -/
structure ExtractedImage where
  image_id : String
  filename : String
  base64_data : String
  element_type : String
  page_number : Int
  bbox : Option (List ℚ) := none
  associated_topic_id : Option String := none
deriving Repr, DecidableEq

/-- Dataclass `QuestionBlock` (lines 73–84).  The `images` field holds the ids
of the associated `ExtractedImage` objects (the source stores the mutable
objects themselves; their identity is `image_id`). -/
structure QuestionBlock where
  question_type : String
  content : String
  options : List String
  correct_answer : Option String
  rationale : Option String
  subject : Option String
  page_number : Int
  confidence_score : ℚ := 0
  images : List String := []
  topic_id : Option String := none
deriving Repr, DecidableEq

/-! ### Image–topic associator
(`ImageExtractor.associate_images_with_topics`, lines 248–271, and
`ImageExtractor._topic_mentions_visuals`, lines 273–282). -/

/-- The fixed visual-content keyword list of `_topic_mentions_visuals`. -/
def visual_keywords : List String :=
  [ "image", "picture", "photograph", "figure", "shown",
    "observe", "see", "visual", "appears", "demonstrates",
    "lesion", "rash", "condition", "skin", "wound" ]

/-- `_topic_mentions_visuals`: does the lowered content contain any visual
keyword as a substring? -/
def topic_mentions_visuals (content : String) : Bool :=
  visual_keywords.any (fun kw => charsInfix kw.toList (lowerChars content.toList))

/-- `page_distance = abs(image.page_number - topic.page_number)` (line 257). -/
def pageDistance (img : ExtractedImage) (t : QuestionBlock) : Nat :=
  (img.page_number - t.page_number).natAbs

/-- The per-(topic, image) association decision of the loop body
(lines 259–267): distance 0 associates unconditionally, distance 1 associates
when the topic mentions visuals, larger distances never associate. -/
def assocDecision (t : QuestionBlock) (p : Int) : Bool :=
  let d := (p - t.page_number).natAbs
  if d = 0 then true
  else if d = 1 then topic_mentions_visuals t.content
  else false

/-- Effect of one topic's loop iteration on one image object:
`image.associated_topic_id = topic.topic_id` exactly when the decision fires
(lines 262, 267). -/
def updImage (t : QuestionBlock) (img : ExtractedImage) : ExtractedImage :=
  if assocDecision t img.page_number then
    { img with associated_topic_id := t.topic_id }
  else img

/-- The `topic_images` list built for one topic (ids of the appended image
objects, in image order). -/
def topicImageIds (t : QuestionBlock) : List ExtractedImage → List String
  | [] => []
  | img :: rest =>
      if assocDecision t img.page_number then
        img.image_id :: topicImageIds t rest
      else topicImageIds t rest

/-- `ImageExtractor.associate_images_with_topics`: the outer loop over topics,
threading the (mutated-in-place) image list.  Each topic's `images` field is
overwritten with the freshly built `topic_images` list (line 269); the method
returns the topics and leaves the images mutated. -/
def associate_images_with_topics :
    List QuestionBlock → List ExtractedImage → List QuestionBlock × List ExtractedImage
  | [], images => ([], images)
  | t :: ts, images =>
      let t' := { t with images := topicImageIds t images }
      let rest := associate_images_with_topics ts (images.map (updImage t))
      (t' :: rest.1, rest.2)

/-! ### Image quality scorer (`analyze_image_content`, lines 16–82 of
`analyze_extracted_images.py`). -/

/-- The statistics of a successfully decoded image: pixel dimensions, the mean
of the per-channel variances (`sum(stat.var)/len(stat.var)`) and the mean of
the per-channel means (`sum(stat.mean)/len(stat.mean)`). -/
structure DecodedImage where
  width : Nat
  height : Nat
  variance : ℚ
  brightness : ℚ
deriving Repr, DecidableEq

/-- The result dictionary of `analyze_image_content`.  Keys that may be absent
from the Python dict are `Option` fields (the failure dictionary carries only
`error` and `likely_image`). -/
structure AnalysisResult where
  error : Option String := none
  width : Option Nat := none
  height : Option Nat := none
  area : Option Nat := none
  variance : Option ℚ := none
  brightness : Option ℚ := none
  aspect : Option ℚ := none
  score : Option Nat := none
  likely_image : Bool
deriving Repr, DecidableEq

/-- The failure dictionary `{'error': str(e), 'likely_image': False}`
(line 82). -/
def errResult (e : String) : AnalysisResult :=
  { error := some e, likely_image := false }

/-- The additive score of lines 42–68: area band + variance band + aspect band
+ brightness band.  `aspect` is `max(width, height) / min(width, height)`. -/
def scoreOf (img : DecodedImage) : Nat :=
  let area := img.width * img.height
  let aspect : ℚ := ((max img.width img.height : ℕ) : ℚ) / ((min img.width img.height : ℕ) : ℚ)
  (if area > 50000 then 30 else if area > 20000 then 20 else if area > 10000 then 10 else 0) +
  (if img.variance > 2000 then 25 else if img.variance > 1000 then 15 else if img.variance > 500 then 10 else 0) +
  (if aspect < 3 then 15 else if aspect < 5 then 10 else 0) +
  (if 50 < img.brightness ∧ img.brightness < 200 then 10 else 0)

/-- The success dictionary of lines 70–79. -/
def okResult (img : DecodedImage) : AnalysisResult :=
  { width := some img.width
    height := some img.height
    area := some (img.width * img.height)
    variance := some img.variance
    brightness := some img.brightness
    aspect := some (((max img.width img.height : ℕ) : ℚ) / ((min img.width img.height : ℕ) : ℚ))
    score := some (scoreOf img)
    likely_image := decide (40 < scoreOf img) }

/-- `analyze_image_content`: the whole body runs under `try/except`; a decode
failure (the `Except.error` input) reaches the handler and yields the failure
dictionary.  A decoded image with a zero dimension would raise
`ZeroDivisionError` in the aspect computation, likewise caught by the
handler. -/
def analyze_image_content (input : Except String DecodedImage) : AnalysisResult :=
  match input with
  | Except.error e => errResult e
  | Except.ok img =>
      if min img.width img.height = 0 then errResult ("division by zero")
      else okResult img

/-! ### Validation aggregator (`enhanced_validation`, lines 525–573 of
`enhanced_image_extraction.py`). -/

/-- The report dictionary built by `enhanced_validation` when topics exist. -/
structure ValidationReport where
  total_topics : Nat
  total_images : Nat
  valid_topics : Nat
  topics_with_images : Nat
  image_associations : Nat
  success_rate : ℚ
  image_coverage : ℚ
  question_type_distribution : List (String × Nat)
  average_confidence : ℚ
  confidence_min : ℚ
  confidence_max : ℚ
deriving Repr, DecidableEq

/-- `enhanced_validation` returns either the error dictionary
`{'error': 'No topics extracted'}` or the full report dictionary. -/
inductive ValidationOutput where
  | error (msg : String)
  | report (r : ValidationReport)
deriving Repr, DecidableEq

/-- Python dict counting with insertion order:
`type_counts[q_type] = type_counts.get(q_type, 0) + 1`. -/
def bumpCount : List (String × Nat) → String → List (String × Nat)
  | [], k => [(k, 1)]
  | (k', n) :: rest, k =>
      if k' = k then (k', n + 1) :: rest else (k', n) :: bumpCount rest k

/-- Python truthiness of the optional `subject` string: present and
non-empty. -/
def subjectTruthy : Option String → Bool
  | none => false
  | some s => !s.isEmpty

/-- Accumulator of the `for topic in topics` loop (lines 540–555). -/
structure ValidTally where
  type_counts : List (String × Nat)
  confidence_scores : List ℚ
  valid_topics : Nat
  topics_with_images : Nat
  image_associations : Nat
deriving Repr, DecidableEq

/-- One iteration of the validation loop. -/
def tallyTopic (acc : ValidTally) (topic : QuestionBlock) : ValidTally :=
  { type_counts := bumpCount acc.type_counts topic.question_type
    confidence_scores := acc.confidence_scores ++ [topic.confidence_score]
    valid_topics :=
      acc.valid_topics +
        (if subjectTruthy topic.subject ∧ topic.confidence_score > 3/10 then 1 else 0)
    topics_with_images :=
      acc.topics_with_images + (if topic.images ≠ [] then 1 else 0)
    image_associations :=
      acc.image_associations + (if topic.images ≠ [] then topic.images.length else 0) }

/-- `enhanced_validation`: the zero-topic guard (lines 530–531) returns the
error dictionary before any ratio is computed; otherwise the loop tallies the
topics and the report dictionary is assembled with its guarded divisions. -/
def enhanced_validation (topics : List QuestionBlock) (images : List ExtractedImage) :
    ValidationOutput :=
  let total_topics := topics.length
  if total_topics = 0 then ValidationOutput.error ("No topics extracted")
  else
    let tally := topics.foldl tallyTopic ⟨[], [], 0, 0, 0⟩
    let scores := tally.confidence_scores
    ValidationOutput.report
      { total_topics := total_topics
        total_images := images.length
        valid_topics := tally.valid_topics
        topics_with_images := tally.topics_with_images
        image_associations := tally.image_associations
        success_rate :=
          if 0 < total_topics then (tally.valid_topics : ℚ) / (total_topics : ℚ) else 0
        image_coverage :=
          if 0 < total_topics then (tally.topics_with_images : ℚ) / (total_topics : ℚ) else 0
        question_type_distribution := tally.type_counts
        average_confidence :=
          if scores = [] then 0 else scores.sum / (scores.length : ℚ)
        confidence_min := match scores with | [] => 0 | x :: xs => xs.foldl min x
        confidence_max := match scores with | [] => 0 | x :: xs => xs.foldl max x }

/-! ### Region detector filtering stage
(`PDFImageExtractor._detect_image_like_regions`, lines 213–254 of
`extract_images_comprehensive.py`).  The pixel pipeline (Canny, morphology,
`findContours`) is external OpenCV; its output is a list of contours, each
characterised by its axis-aligned bounding rectangle (`cv2.boundingRect`) and
its `cv2.contourArea` value, which is what the source's filtering reads. -/

/-- One external contour: bounding rectangle and contour area. -/
structure Contour where
  x : Nat
  y : Nat
  w : Nat
  h : Nat
  area : ℚ
deriving Repr, DecidableEq

/-- A surviving candidate `(x, y, w, h, confidence)` tuple. -/
structure CandidateRegion where
  x : Nat
  y : Nat
  w : Nat
  h : Nat
  confidence : ℚ
deriving Repr, DecidableEq

/-- The per-contour filter of lines 232–250: minimum size 100, aspect bound
`max(w/h, h/w) <= 10`, positive bounding-box area, and fill-ratio confidence
`area / (w*h) >= 0.3`. -/
def regionOf (c : Contour) : Option CandidateRegion :=
  if 100 ≤ c.w ∧ 100 ≤ c.h then
    if max ((c.w : ℚ) / (c.h : ℚ)) ((c.h : ℚ) / (c.w : ℚ)) ≤ 10 then
      if 0 < (c.w : ℚ) * (c.h : ℚ) then
        let confidence := c.area / ((c.w : ℚ) * (c.h : ℚ))
        if 3/10 ≤ confidence then some ⟨c.x, c.y, c.w, c.h, confidence⟩ else none
      else none
    else none
  else none

/-- The sort key of line 253: descending confidence (`reverse=True`, stable). -/
def confDesc (a b : CandidateRegion) : Bool := decide (b.confidence ≤ a.confidence)

/-- `_detect_image_like_regions` on the contour list: filter, sort by
confidence descending, truncate to the top 10 (lines 252–254). -/
def detect_image_like_regions (contours : List Contour) : List CandidateRegion :=
  (((contours.filterMap regionOf).mergeSort confDesc).take 10)

/-! ### Content classifier (`EnhancedQuestionClassifier`, lines 86–193 of
`enhanced_image_extraction.py`).  Every `re` pattern of the source is
hand-compiled to a head-anchored scanner run by the `re.search`/`re.findall`
drivers above; each definition names the pattern it implements. -/

/-- Character class `[A-D]` under `re.IGNORECASE`. -/
def isAD : Char → Bool := fun c => ('A' ≤ c && c ≤ 'D') || ('a' ≤ c && c ≤ 'd')

/-- Character class `[A-Z]` under `re.IGNORECASE`. -/
def isLetter : Char → Bool := fun c => ('A' ≤ c && c ≤ 'Z') || ('a' ≤ c && c ≤ 'z')

/-- Character class `[A-F]` (no flag — the option patterns are matched without
`re.IGNORECASE`). -/
def isAF : Char → Bool := fun c => 'A' ≤ c && c ≤ 'F'

/-- Character class `[A-F]` under inline `(?i)` (the answer patterns). -/
def isAFi : Char → Bool := fun c => ('A' ≤ c && c ≤ 'F') || ('a' ≤ c && c ≤ 'f')

/-- Regex fragment `\s+[A-Z]` (with `(?i)`) at the head: at least one
whitespace character, then a letter.  Backtracking cannot help: a letter is
never whitespace, so the greedy run is equivalent. -/
def wsThenLetter (l : List Char) : Bool :=
  match l with
  | [] => false
  | c :: _ =>
      isPyWhite c &&
        (match l.dropWhile isPyWhite with
         | [] => false
         | d :: _ => isLetter d)

/-- Pattern `[A-D]\.\s+[A-Z]` (weight 0.9) at the head. -/
def mcPat1Here : List Char → Bool
  | a :: '.' :: rest => isAD a && wsThenLetter rest
  | _ => false

/-- Pattern `\([A-D]\)\s+[A-Z]` (weight 0.8) at the head. -/
def mcPat2Here : List Char → Bool
  | '(' :: a :: ')' :: rest => isAD a && wsThenLetter rest
  | _ => false

/-- Regex `a.*b` (searched case-insensitively) at the head of a suffix of the
lowered text: literal `a`, then `b` with no newline crossed by `.*`. -/
def seqHere (a b : List Char) (s : List Char) : Bool :=
  charsStart a s && nlFreeFind b (s.drop a.length)

/-- `re.search` of `(?i)a.*b` over the whole text. -/
def seqSearch (a b : String) (text : List Char) : Bool :=
  searchB (seqHere a.toList b.toList) (lowerChars text)

/-- `re.search` of a case-insensitive literal (Python `(?i)lit`). -/
def containsCI (a : String) (text : List Char) : Bool :=
  charsInfix a.toList (lowerChars text)

/-- Pattern `☐|□|\[\s*\]` (weight 0.7) at the head. -/
def checkboxHere : List Char → Bool
  | '☐' :: _ => true
  | '□' :: _ => true
  | '[' :: rest =>
      (match rest.dropWhile isPyWhite with
       | ']' :: _ => true
       | _ => false)
  | _ => false

/-- Pattern `_{3,}` (weight 0.9) at the head. -/
def underscores3Here : List Char → Bool
  | '_' :: '_' :: '_' :: _ => true
  | _ => false

/-- Patterns `\[.*?\]` and `\(.*?\)` at the head: the opening delimiter, then
the closing one on the same line. -/
def delimHere (opn cls : Char) : List Char → Bool
  | c :: rest => c == opn && nlFreeFind [cls] rest
  | [] => false

/-- The `self.patterns` table (lines 90–114) in dictionary insertion order.
Weights are the source's float literals represented exactly in tenths. -/
def classifier_patterns : List (String × List ((List Char → Bool) × Nat)) :=
  [ ("multiple_choice",
      [ (searchB mcPat1Here, 9),
        (searchB mcPat2Here, 8),
        (seqSearch ("which") ("following"), 3),
        (seqSearch ("choose") ("correct"), 3) ]),
    ("sata",
      [ (containsCI ("select all that apply"), 10),
        (seqSearch ("choose all") ("correct"), 9),
        (seqSearch ("mark all") ("appropriate"), 8),
        (searchB checkboxHere, 7) ]),
    ("fill_blank",
      [ (searchB underscores3Here, 9),
        (searchB (delimHere '[' ']'), 8),
        (searchB (delimHere '(' ')'), 3) ]),
    ("matrix",
      [ (seqSearch ("match") ("column"), 9),
        (seqSearch ("drag") ("drop"), 8),
        (containsCI ("grid"), 7),
        (containsCI ("table"), 3) ]) ]

/-- The `self.image_indicators` list (lines 117–125). -/
def image_indicators : List (List Char → Bool) :=
  [ seqSearch ("shown") ("image"),
    seqSearch ("picture") ("shows"),
    seqSearch ("photograph") ("demonstrates"),
    seqSearch ("figure") ("illustrates"),
    seqSearch ("see") ("image"),
    seqSearch ("observe") ("condition"),
    seqSearch ("visual") ("examination") ]

/-- Sum of the weights of the patterns of one type that match the text
(lines 135–138). -/
def typeScore (pats : List ((List Char → Bool) × Nat)) (text : List Char) : Nat :=
  pats.foldl (fun acc p => if p.1 text then acc + p.2 else acc) 0

/-- The image-awareness boost of lines 141–145: +0.3 (3 tenths) once if images
are present and any indicator matches (the loop breaks after the first). -/
def imageBoost (has_images : Bool) (text : List Char) : Nat :=
  if has_images && image_indicators.any (fun p => p text) then 3 else 0

/-- Regex fragment `\s+([^\n]+)` at the head, with Python backtracking: the
greedy whitespace run is shortened (never below one character) until the
greedy non-newline capture is non-empty.  Returns the capture and the
remainder after the match (where `re.findall` resumes). -/
def wsCaptureGo (l : List Char) : Nat → Option (List Char × List Char)
  | 0 => none
  | Nat.succ k =>
      let tail := l.drop (k + 1)
      let cap := tail.takeWhile (fun c => c != '\n')
      if cap.isEmpty then wsCaptureGo l k else some (cap, tail.drop cap.length)

/-- Entry point for `\s+([^\n]+)`: start from the maximal whitespace run. -/
def wsCapture (l : List Char) : Option (List Char × List Char) :=
  wsCaptureGo l (l.takeWhile isPyWhite).length

/-- Option pattern `[A-F]\.\s+([^\n]+)` at the head. -/
def optCapture1Here : List Char → Option (List Char × List Char)
  | a :: '.' :: rest => if isAF a then wsCapture rest else none
  | _ => none

/-- Option pattern `\([A-F]\)\s+([^\n]+)` at the head. -/
def optCapture2Here : List Char → Option (List Char × List Char)
  | '(' :: a :: ')' :: rest => if isAF a then wsCapture rest else none
  | _ => none

/-- `re.findall` driver: scan left to right, emit each leftmost capture and
resume after the matched span.  The fuel argument (initialised to the text
length, an upper bound on the number of scan steps) makes the recursion
structural; a successful match always consumes at least one character, so the
fuel never runs out early. -/
def findallGo (here : List Char → Option (List Char × List Char)) :
    Nat → List Char → List (List Char)
  | 0, _ => []
  | _, [] => []
  | Nat.succ fuel, c :: cs =>
      match here (c :: cs) with
      | some (cap, rest) => cap :: findallGo here fuel rest
      | none => findallGo here fuel cs

/-- `re.findall(pattern, text, re.MULTILINE)` for a capturing pattern. -/
def findallCaps (here : List Char → Option (List Char × List Char))
    (l : List Char) : List (List Char) :=
  findallGo here l.length l

/-- The option extraction of lines 152–158: the first of the two labelled-line
patterns that yields any matches wins; no merging across formats. -/
def extract_options (text : List Char) : List String :=
  match findallCaps optCapture1Here text with
  | [] => (findallCaps optCapture2Here text).map (fun c => String.mk c)
  | l => l.map (fun c => String.mk c)

/-- Answer pattern `lit:?\s*([A-F])` (with `(?i)`) at the head.  `colon`
records whether the pattern has the optional colon.  Backtracking over `:?`
and `\s*` cannot produce a different outcome, since neither a colon nor
whitespace is in `[A-F]`; the capture is uppercased as in
`match.group(1).upper()`. -/
def answerHere (lit : List Char) (colon : Bool) (s : List Char) : Option Char :=
  if charsStartCI lit s then
    let r0 := s.drop lit.length
    let r1 := if colon then (match r0 with | ':' :: t => t | _ => r0) else r0
    match r1.dropWhile isPyWhite with
    | c :: _ => if isAFi c then some c.toUpper else none
    | [] => none
  else none

/-- `EnhancedQuestionClassifier._extract_answer` (lines 169–180): the three
patterns `(?i)correct answer:?\s*([A-F])`, `(?i)answer:?\s*([A-F])`,
`(?i)the answer is\s*([A-F])` in order, first match wins. -/
def extract_answer (text : List Char) : Option Char :=
  match searchOpt (answerHere ("correct answer").toList true) text with
  | some c => some c
  | none =>
      match searchOpt (answerHere ("answer").toList true) text with
      | some c => some c
      | none => searchOpt (answerHere ("the answer is").toList false) text

/-- Regex fragment `([^.]+\.)` at position `k` of `l`: a non-empty greedy run
of non-period characters followed by a literal period (both captured). -/
def dotCaptureAt (l : List Char) (k : Nat) : Option (List Char) :=
  let tail := l.drop k
  let t := tail.takeWhile (fun c => c != '.')
  if t.isEmpty then none
  else
    match tail.drop t.length with
    | '.' :: _ => some (t ++ ['.'])
    | _ => none

/-- Backtracking over the greedy `\s*` before `([^.]+\.)`: try the maximal
whitespace run first, then shorter runs (whitespace is itself `[^.]`, so a
shorter run moves it into the capture). -/
def dotCaptureGo (l : List Char) : Nat → Option (List Char)
  | 0 => dotCaptureAt l 0
  | Nat.succ k =>
      match dotCaptureAt l (Nat.succ k) with
      | some r => some r
      | none => dotCaptureGo l k

/-- Regex fragment `\s*([^.]+\.)` at the head. -/
def dotCapture (l : List Char) : Option (List Char) :=
  dotCaptureGo l (l.takeWhile isPyWhite).length

/-- Rationale pattern `lit:?\s*([^.]+\.)` (with `(?i)`, searched with
`re.DOTALL`, which is irrelevant as the pattern has no `.` metacharacter) at
the head; the optional colon is greedy, with the colonless alternative tried
on backtracking. -/
def rationaleHere (lit : List Char) (s : List Char) : Option (List Char) :=
  if charsStartCI lit s then
    let r0 := s.drop lit.length
    match r0 with
    | ':' :: t =>
        (match dotCapture t with
         | some r => some r
         | none => dotCapture r0)
    | _ => dotCapture r0
  else none

/-- Python `str.strip()`. -/
def pyStrip (l : List Char) : List Char :=
  ((l.dropWhile isPyWhite).reverse.dropWhile isPyWhite).reverse

/-- `EnhancedQuestionClassifier._extract_rationale` (lines 182–193): the three
patterns `(?i)rationale:?\s*([^.]+\.)`, `(?i)explanation:?\s*([^.]+\.)`,
`(?i)because:?\s*([^.]+\.)` in order; the captured group is stripped. -/
def extract_rationale (text : List Char) : Option String :=
  let res :=
    match searchOpt (rationaleHere ("rationale").toList) text with
    | some r => some r
    | none =>
        match searchOpt (rationaleHere ("explanation").toList) text with
        | some r => some r
        | none => searchOpt (rationaleHere ("because").toList) text
  res.map (fun r => String.mk (pyStrip r))

/-- Dataclass `QuestionDetectionResult` (lines 64–71).  `confidence` is in
tenths; `correct_answer` is the single captured letter. -/
structure QuestionDetectionResult where
  question_type : String
  confidence : Nat
  extracted_options : List String
  correct_answer : Option Char
  rationale : Option String
  associated_images : List String
deriving Repr, DecidableEq

/-- `EnhancedQuestionClassifier.classify` (lines 127–167): per-type additive
pattern scores (plus the per-type image boost), strict-improvement argmax over
the table in insertion order starting from `('unknown', 0)`; options are
extracted only for `multiple_choice`/`sata`; the confidence is clamped at 1.0
(10 tenths); `associated_images` is never filled by the source. -/
def classify (text : String) (has_images : Bool) : QuestionDetectionResult :=
  let chars := text.toList
  let best :=
    classifier_patterns.foldl
      (fun best entry =>
        let conf := typeScore entry.2 chars + imageBoost has_images chars
        if conf > best.2 then (entry.1, conf) else best)
      ("unknown", 0)
  { question_type := best.1
    confidence := min best.2 10
    extracted_options :=
      if best.1 = "multiple_choice" ∨ best.1 = "sata" then extract_options chars else []
    correct_answer := extract_answer chars
    rationale := extract_rationale chars
    associated_images := [] }

/-! ## Theorems -/

/-! ### Image quality scorer (claims C5, C6) -/

/-- Claim C5: the Image Quality Scorer gives score 80 and `likely_image = true`
to a region of area 60000 (300x200), variance 2500, aspect 1.5, brightness
100; it gives score 0 and `likely_image = false` to a region of area 5000
(200x25), variance 100, aspect 8, brightness 250; and in general
`likely_image` holds exactly when the additive score exceeds 40. -/
theorem scorer_bands_and_threshold :
    (analyze_image_content (Except.ok ⟨300, 200, 2500, 100⟩)).score = some 80 ∧
    (analyze_image_content (Except.ok ⟨300, 200, 2500, 100⟩)).likely_image = true ∧
    (analyze_image_content (Except.ok ⟨200, 25, 100, 250⟩)).score = some 0 ∧
    (analyze_image_content (Except.ok ⟨200, 25, 100, 250⟩)).likely_image = false ∧
    (∀ input : Except String DecodedImage,
      (analyze_image_content input).likely_image = true ↔
        ∃ n, (analyze_image_content input).score = some n ∧ 40 < n) := by
  have h1 : scoreOf ⟨300, 200, 2500, 100⟩ = 80 := by norm_num [scoreOf]
  have h2 : scoreOf ⟨200, 25, 100, 250⟩ = 0 := by norm_num [scoreOf]
  refine ⟨?_, ?_, ?_, ?_, ?_⟩
  · simp [analyze_image_content, okResult, h1]
  · simp [analyze_image_content, okResult, h1]
  · simp [analyze_image_content, okResult, h2]
  · simp [analyze_image_content, okResult, h2]
  · intro input
    cases input with
    | error e => simp [analyze_image_content, errResult]
    | ok img =>
        by_cases h : min img.width img.height = 0
        · simp [analyze_image_content, errResult, h]
        · simp [analyze_image_content, okResult, h]

/-- Claim C6, counterexample: on a decode failure the result dictionary does
not contain a score of 0 — it has no score key at all. -/
theorem scorer_decode_error_counterexample :
    (analyze_image_content (Except.error ("decode failure"))).score ≠ some 0 := by
  decide

/-- Claim C6, amended: on every decode failure the scorer returns a structured
result with `likely_image = false`, the error recorded as data, and an absent
score field (read as 0 by consumers that default it); the error is never
propagated — `analyze_image_content` is total. -/
theorem scorer_decode_error_result (e : String) :
    (analyze_image_content (Except.error e)).likely_image = false ∧
    (analyze_image_content (Except.error e)).error = some e ∧
    (analyze_image_content (Except.error e)).score = none :=
  ⟨rfl, rfl, rfl⟩

/-! ### Content classifier (claim C7) -/

/-- Claim C7, counterexample: on the text
`Select all that apply: A. Fever B. Cough` the classifier does not return the
options `["Fever", "Cough"]` — the greedy labelled-line capture `[^\n]+` runs
to the end of the line. -/
theorem classifier_sata_options_counterexample :
    ¬ ((classify ("Select all that apply: A. Fever B. Cough") false).question_type = "sata" ∧
       (classify ("Select all that apply: A. Fever B. Cough") false).extracted_options
         = ["Fever", "Cough"]) := by
  decide

/-- Claim C7, amended: the text `Select all that apply: A. Fever B. Cough`
(with no images) classifies as `sata` with the single extracted option
`"Fever B. Cough"`: the `[A-F]\.\s+([^\n]+)` capture is greedy up to the end
of the line, so on a one-line text the first labelled option swallows the
remaining labels. -/
theorem classifier_sata_single_option :
    (classify ("Select all that apply: A. Fever B. Cough") false).question_type = "sata" ∧
    (classify ("Select all that apply: A. Fever B. Cough") false).extracted_options
      = ["Fever B. Cough"] := by
  decide

/-! ### Validation aggregator (claim C9) -/

/-- Claim C9: on an empty topic list `enhanced_validation` returns the
structured error marker (for every image list), before any ratio is computed —
no division by zero and no exception; on any non-empty topic list it returns a
report instead. -/
theorem validation_empty_topics :
    (∀ images : List ExtractedImage,
        enhanced_validation [] images = ValidationOutput.error ("No topics extracted")) ∧
    (∀ (t : QuestionBlock) (ts : List QuestionBlock) (images : List ExtractedImage),
        ∃ r, enhanced_validation (t :: ts) images = ValidationOutput.report r) :=
  ⟨fun _ => rfl, fun _ _ _ => ⟨_, rfl⟩⟩

/-! ### Region detector (claims C3, C4) -/

/-- Membership in the detector output comes from a contour accepted by the
per-contour filter. -/
theorem mem_detect_exists_contour {contours : List Contour} {r : CandidateRegion}
    (hr : r ∈ detect_image_like_regions contours) :
    ∃ c ∈ contours, regionOf c = some r := by
  have h1 : r ∈ (contours.filterMap regionOf).mergeSort confDesc :=
    List.mem_of_mem_take hr
  have h2 : r ∈ contours.filterMap regionOf :=
    ((contours.filterMap regionOf).mergeSort_perm confDesc).mem_iff.mp h1
  exact List.mem_filterMap.mp h2

/-- Claim C3: under the geometric guarantee of the OpenCV primitives — a
contour's area never exceeds the area of its bounding rectangle — every
candidate returned by the detector has width and height at least 100, aspect
(long side over short side) at most 10, and a fill-ratio confidence in
[0, 1] that is at least 0.3; no candidate below 0.3 ever appears. -/
theorem region_detector_filter_sound
    (contours : List Contour)
    (harea : ∀ c ∈ contours, c.area ≤ ((c.w * c.h : ℕ) : ℚ)) :
    ∀ r ∈ detect_image_like_regions contours,
      100 ≤ r.w ∧ 100 ≤ r.h ∧
      max ((r.w : ℚ) / (r.h : ℚ)) ((r.h : ℚ) / (r.w : ℚ)) ≤ 10 ∧
      0 ≤ r.confidence ∧ r.confidence ≤ 1 ∧ (3/10 : ℚ) ≤ r.confidence := by
  intro r hr
  obtain ⟨c, hc, hcr⟩ := mem_detect_exists_contour hr
  simp only [regionOf] at hcr
  split_ifs at hcr with h1 h2 h3 h4
  · obtain rfl : (⟨c.x, c.y, c.w, c.h, c.area / ((c.w : ℚ) * (c.h : ℚ))⟩ : CandidateRegion) = r :=
      Option.some.inj hcr
    refine ⟨h1.1, h1.2, h2, ?_, ?_, h4⟩
    · exact le_trans (by norm_num) h4
    · have harea' : c.area ≤ (c.w : ℚ) * (c.h : ℚ) := by
        have := harea c hc
        push_cast at this
        exact this
      exact (div_le_one h3).mpr harea'

/-- Claim C4: for every contour list the detector output has at most 10
candidates and is sorted by non-increasing confidence. -/
theorem region_detector_output_shape (contours : List Contour) :
    (detect_image_like_regions contours).length ≤ 10 ∧
    List.Pairwise (fun a b : CandidateRegion => b.confidence ≤ a.confidence)
      (detect_image_like_regions contours) := by
  constructor
  · show (List.take 10 _).length ≤ 10
    rw [List.length_take]
    exact min_le_left _ _
  · have htrans : ∀ a b c : CandidateRegion,
        confDesc a b = true → confDesc b c = true → confDesc a c = true := by
      intro a b c hab hbc
      simp only [confDesc, decide_eq_true_eq] at *
      exact le_trans hbc hab
    have htotal : ∀ a b : CandidateRegion, (confDesc a b || confDesc b a) = true := by
      intro a b
      simp only [confDesc, Bool.or_eq_true, decide_eq_true_eq]
      exact le_total _ _
    have hs := List.sorted_mergeSort htrans htotal (contours.filterMap regionOf)
    have hs' : List.Pairwise (fun a b : CandidateRegion => b.confidence ≤ a.confidence)
        ((contours.filterMap regionOf).mergeSort confDesc) := by
      refine hs.imp ?_
      intro a b h
      simpa [confDesc] using h
    exact hs'.sublist (List.take_sublist _ _)

/-! ### Image–topic associator: proof layer (claims C1, C2, C10)

The pair returned by `associate_images_with_topics` is split into two
structurally recursive views (`runTopics`, `runImages`), and the final
`associated_topic_id` of an image is characterised by a fold over the topics
(`finalAssoc`).  The association decision reads only an image's page number
and a topic's page number, content and id, which both views preserve — the
key facts behind all three claims. -/

/-- The identity-relevant part of an image: its id and page. -/
def imgKey (img : ExtractedImage) : String × Int :=
  (img.image_id, img.page_number)

/-- The association-relevant part of a topic: id, page, content. -/
def topicKey (t : QuestionBlock) : Option String × Int × String :=
  (t.topic_id, t.page_number, t.content)

/-- First component of `associate_images_with_topics`: the rewritten topics. -/
def runTopics : List QuestionBlock → List ExtractedImage → List QuestionBlock
  | [], _ => []
  | t :: ts, images =>
      { t with images := topicImageIds t images } :: runTopics ts (images.map (updImage t))

/-- Second component of `associate_images_with_topics`: the mutated images. -/
def runImages : List QuestionBlock → List ExtractedImage → List ExtractedImage
  | [], images => images
  | t :: ts, images => runImages ts (images.map (updImage t))

/-- The scalar `associated_topic_id` after all topics have run: the last topic
whose decision fires overwrites it. -/
def finalAssoc (ts : List QuestionBlock) (p : Int) (a : Option String) : Option String :=
  ts.foldl (fun acc t => if assocDecision t p then t.topic_id else acc) a

theorem run_eq (ts : List QuestionBlock) (ims : List ExtractedImage) :
    associate_images_with_topics ts ims = (runTopics ts ims, runImages ts ims) := by
  induction ts generalizing ims with
  | nil => rfl
  | cons t ts ih =>
      simp [associate_images_with_topics, runTopics, runImages, ih]

theorem imgKey_updImage (t : QuestionBlock) (img : ExtractedImage) :
    imgKey (updImage t img) = imgKey img := by
  unfold updImage
  split <;> rfl

theorem map_imgKey_upd (t : QuestionBlock) (ims : List ExtractedImage) :
    (ims.map (updImage t)).map imgKey = ims.map imgKey := by
  rw [List.map_map]
  have h : imgKey ∘ updImage t = imgKey := funext (imgKey_updImage t)
  rw [h]

theorem runImages_key (ts : List QuestionBlock) :
    ∀ ims : List ExtractedImage, (runImages ts ims).map imgKey = ims.map imgKey := by
  induction ts with
  | nil => intro ims; rfl
  | cons t ts ih =>
      intro ims
      rw [runImages, ih, map_imgKey_upd]

theorem runTopics_length (ts : List QuestionBlock) :
    ∀ ims : List ExtractedImage, (runTopics ts ims).length = ts.length := by
  induction ts with
  | nil => intro ims; rfl
  | cons t ts ih => intro ims; simp [runTopics, ih]

theorem topicImageIds_congr (t : QuestionBlock) :
    ∀ ims₁ ims₂ : List ExtractedImage,
      ims₁.map imgKey = ims₂.map imgKey → topicImageIds t ims₁ = topicImageIds t ims₂ := by
  intro ims₁
  induction ims₁ with
  | nil =>
      intro ims₂ h
      cases ims₂ with
      | nil => rfl
      | cons b bs => simp at h
  | cons a as ih =>
      intro ims₂ h
      cases ims₂ with
      | nil => simp at h
      | cons b bs =>
          simp only [List.map_cons, List.cons.injEq, imgKey, Prod.mk.injEq] at h
          obtain ⟨⟨h1, h2⟩, h3⟩ := h
          simp [topicImageIds, h1, h2, ih bs h3]

theorem mem_topicImageIds_of (t : QuestionBlock) {img : ExtractedImage} :
    ∀ {ims : List ExtractedImage}, img ∈ ims →
      assocDecision t img.page_number = true → img.image_id ∈ topicImageIds t ims := by
  intro ims
  induction ims with
  | nil => intro h; simp at h
  | cons a as ih =>
      intro hmem hdec
      rcases List.mem_cons.mp hmem with rfl | h
      · simp [topicImageIds, hdec]
      · by_cases hd : assocDecision t a.page_number <;>
          simp [topicImageIds, hd, ih h hdec]

theorem of_mem_topicImageIds (t : QuestionBlock) {s : String} :
    ∀ {ims : List ExtractedImage}, s ∈ topicImageIds t ims →
      ∃ img ∈ ims, assocDecision t img.page_number = true ∧ img.image_id = s := by
  intro ims
  induction ims with
  | nil => intro h; simp [topicImageIds] at h
  | cons a as ih =>
      intro hmem
      by_cases hd : assocDecision t a.page_number
      · rw [topicImageIds, if_pos hd] at hmem
        rcases List.mem_cons.mp hmem with rfl | h
        · exact ⟨a, List.mem_cons_self a as, hd, rfl⟩
        · obtain ⟨img, h1, h2, h3⟩ := ih h
          exact ⟨img, List.mem_cons_of_mem a h1, h2, h3⟩
      · rw [topicImageIds, if_neg hd] at hmem
        obtain ⟨img, h1, h2, h3⟩ := ih hmem
        exact ⟨img, List.mem_cons_of_mem a h1, h2, h3⟩

/-- The output topic at position `i` is the input topic with its `images`
field rebuilt from the image list as mutated by the earlier topics. -/
theorem runTopics_get (ts : List QuestionBlock) :
    ∀ (ims : List ExtractedImage) (i : Nat) (hi : i < ts.length)
      (hi' : i < (runTopics ts ims).length),
      (runTopics ts ims).get ⟨i, hi'⟩ =
        { ts.get ⟨i, hi⟩ with
            images := topicImageIds (ts.get ⟨i, hi⟩) (runImages (ts.take i) ims) } := by
  induction ts with
  | nil => intro ims i hi hi'; simp at hi
  | cons t ts ih =>
      intro ims i hi hi'
      cases i with
      | zero => rfl
      | succ n =>
          have hn : n < ts.length := by simpa using hi
          have hn' : n < (runTopics ts (ims.map (updImage t))).length := by
            rw [runTopics_length]; exact hn
          have := ih (ims.map (updImage t)) n hn hn'
          simpa [runTopics, runImages] using this

/-- With globally distinct image ids, the id of the `j`-th input image appears
in a topic's rebuilt list exactly when the association decision fires for it —
for any image list that agrees with the input on ids and pages. -/
theorem image_id_mem_iff (t : QuestionBlock) {ims ims₁ : List ExtractedImage}
    (hids : (ims.map ExtractedImage.image_id).Nodup)
    (hkeys : ims₁.map imgKey = ims.map imgKey)
    {j : Nat} (hj : j < ims.length) :
    (ims.get ⟨j, hj⟩).image_id ∈ topicImageIds t ims₁ ↔
      assocDecision t (ims.get ⟨j, hj⟩).page_number = true := by
  constructor
  · intro h
    obtain ⟨k, hk, hdec, hkid⟩ := of_mem_topicImageIds t h
    have h1 : imgKey k ∈ ims.map imgKey := by
      rw [← hkeys]
      exact List.mem_map_of_mem imgKey hk
    obtain ⟨m, hm, hmk⟩ := List.mem_map.mp h1
    have hmid : m.image_id = (ims.get ⟨j, hj⟩).image_id := by
      have h2 : m.image_id = k.image_id := congrArg Prod.fst hmk
      rw [h2, hkid]
    have hmem_j : ims.get ⟨j, hj⟩ ∈ ims := List.get_mem ims j hj
    have hmj : m = ims.get ⟨j, hj⟩ :=
      List.inj_on_of_nodup_map hids hm hmem_j hmid
    have hpg : k.page_number = (ims.get ⟨j, hj⟩).page_number := by
      have h2 : m.page_number = k.page_number := congrArg Prod.snd hmk
      rw [← h2, hmj]
    rw [← hpg]
    exact hdec
  · intro hdec
    have h1 : imgKey (ims.get ⟨j, hj⟩) ∈ ims₁.map imgKey := by
      rw [hkeys]
      exact List.mem_map_of_mem imgKey (List.get_mem ims j hj)
    obtain ⟨k, hk, hkk⟩ := List.mem_map.mp h1
    have hkid : k.image_id = (ims.get ⟨j, hj⟩).image_id := congrArg Prod.fst hkk
    have hkpg : k.page_number = (ims.get ⟨j, hj⟩).page_number := congrArg Prod.snd hkk
    rw [← hkid]
    exact mem_topicImageIds_of t hk (by rw [hkpg]; exact hdec)

/-- Claim C1: for the topic at position `i` and the image at position `j` of
the associator's input (image ids distinct), the output topic at position `i`
contains the image in its `images` list unconditionally at page distance 0,
exactly when the topic mentions a visual keyword at page distance 1, and never
at page distance greater than 1. -/
theorem associator_page_distance_rule
    (ts : List QuestionBlock) (ims : List ExtractedImage)
    (hids : (ims.map ExtractedImage.image_id).Nodup)
    (i j : Nat) (t t' : QuestionBlock) (img : ExtractedImage)
    (ht : ts.get? i = some t) (himg : ims.get? j = some img)
    (ht' : ((associate_images_with_topics ts ims).1).get? i = some t') :
    (pageDistance img t = 0 → img.image_id ∈ t'.images) ∧
    (pageDistance img t = 1 →
      (img.image_id ∈ t'.images ↔ topic_mentions_visuals t.content = true)) ∧
    (1 < pageDistance img t → img.image_id ∉ t'.images) := by
  rw [run_eq] at ht'
  obtain ⟨hi, ht⟩ := List.get?_eq_some.mp ht
  obtain ⟨hj, himg⟩ := List.get?_eq_some.mp himg
  obtain ⟨hi', ht'⟩ := List.get?_eq_some.mp ht'
  subst ht himg ht'
  rw [runTopics_get ts ims i hi hi']
  have hmem := @image_id_mem_iff (ts.get ⟨i, hi⟩) ims (runImages (ts.take i) ims)
    hids (runImages_key (ts.take i) ims) j hj
  simp only [] at hmem ⊢
  have hd : assocDecision (ts.get ⟨i, hi⟩) (ims.get ⟨j, hj⟩).page_number =
      (if pageDistance (ims.get ⟨j, hj⟩) (ts.get ⟨i, hi⟩) = 0 then true
       else if pageDistance (ims.get ⟨j, hj⟩) (ts.get ⟨i, hi⟩) = 1 then
         topic_mentions_visuals (ts.get ⟨i, hi⟩).content
       else false) := rfl
  refine ⟨?_, ?_, ?_⟩
  · intro h0
    rw [hmem, hd, h0]
    simp
  · intro h1
    rw [hmem, hd, h1]
    simp
  · intro hgt
    have hne0 : pageDistance (ims.get ⟨j, hj⟩) (ts.get ⟨i, hi⟩) ≠ 0 := by omega
    have hne1 : pageDistance (ims.get ⟨j, hj⟩) (ts.get ⟨i, hi⟩) ≠ 1 := by omega
    rw [hmem, hd, if_neg hne0, if_neg hne1]
    simp

theorem finalAssoc_cons (t : QuestionBlock) (ts : List QuestionBlock) (p : Int)
    (a : Option String) :
    finalAssoc (t :: ts) p a =
      finalAssoc ts p (if assocDecision t p then t.topic_id else a) := rfl

/-- The mutated image list, characterised pointwise: each image keeps all its
fields except that `associated_topic_id` becomes the fold of the decisions of
all topics over its page. -/
theorem runImages_char (ts : List QuestionBlock) :
    ∀ ims : List ExtractedImage,
      runImages ts ims =
        ims.map (fun i =>
          { i with associated_topic_id := finalAssoc ts i.page_number i.associated_topic_id }) := by
  induction ts with
  | nil =>
      intro ims
      exact (List.map_id' ims).symm
  | cons t ts ih =>
      intro ims
      rw [runImages, ih, List.map_map]
      have hfun :
          ((fun i : ExtractedImage =>
              { i with associated_topic_id := finalAssoc ts i.page_number i.associated_topic_id })
            ∘ updImage t) =
          (fun i : ExtractedImage =>
              { i with associated_topic_id := finalAssoc (t :: ts) i.page_number i.associated_topic_id }) := by
        funext i
        show ({ updImage t i with
            associated_topic_id :=
              finalAssoc ts (updImage t i).page_number (updImage t i).associated_topic_id } : ExtractedImage) = _
        unfold updImage
        by_cases hd : assocDecision t i.page_number
        · rw [if_pos hd, finalAssoc_cons]
          rw [if_pos hd]
        · rw [if_neg hd, finalAssoc_cons]
          rw [if_neg hd]
      rw [hfun]

theorem finalAssoc_some :
    ∀ (ts : List QuestionBlock) (p : Int) (a : Option String) (tid : String),
      finalAssoc ts p a = some tid →
      a = some tid ∨ ∃ t ∈ ts, t.topic_id = some tid ∧ assocDecision t p = true := by
  intro ts
  induction ts with
  | nil => intro p a tid h; exact Or.inl h
  | cons t ts ih =>
      intro p a tid h
      rw [finalAssoc_cons] at h
      rcases ih p _ tid h with h' | ⟨u, hu, h1, h2⟩
      · by_cases hd : assocDecision t p
        · rw [if_pos hd] at h'
          exact Or.inr ⟨t, List.mem_cons_self t ts, h', hd⟩
        · rw [if_neg hd] at h'
          exact Or.inl h'
      · exact Or.inr ⟨u, List.mem_cons_of_mem t hu, h1, h2⟩

/-- Every input topic reappears in the output with its `images` list rebuilt
over some image list agreeing with the input on ids and pages. -/
theorem runTopics_mem (t : QuestionBlock) :
    ∀ (ts : List QuestionBlock) (ims : List ExtractedImage), t ∈ ts →
      ∃ ims₁ : List ExtractedImage, ims₁.map imgKey = ims.map imgKey ∧
        { t with images := topicImageIds t ims₁ } ∈ runTopics ts ims := by
  intro ts
  induction ts with
  | nil => intro ims h; simp at h
  | cons u ts ih =>
      intro ims h
      rcases List.mem_cons.mp h with rfl | h'
      · exact ⟨ims, rfl, by rw [runTopics]; exact List.mem_cons_self _ _⟩
      · obtain ⟨ims₁, hk, hm⟩ := ih (ims.map (updImage u)) h'
        refine ⟨ims₁, by rw [hk, map_imgKey_upd], ?_⟩
        rw [runTopics]
        exact List.mem_cons_of_mem _ hm

/-- Claim C2: after the associator runs on topics with distinct ids and images
whose `associated_topic_id` is unset (their creation state — the dataclass
default that nothing before the associator touches), every image whose
`associated_topic_id` ends up set points to a topic of the output that
contains that image's id in its `images` list, even though several topics may
have associated the image and only the last one survives in the scalar
field. -/
theorem associator_bidirectional_consistency
    (ts : List QuestionBlock) (ims : List ExtractedImage)
    (hids : (ts.map QuestionBlock.topic_id).Nodup)
    (hinit : ∀ img ∈ ims, img.associated_topic_id = none) :
    ∀ img' ∈ (associate_images_with_topics ts ims).2, ∀ tid : String,
      img'.associated_topic_id = some tid →
      ∃ t' ∈ (associate_images_with_topics ts ims).1,
        t'.topic_id = some tid ∧ img'.image_id ∈ t'.images := by
  rw [run_eq]
  intro img' hmem tid htid
  rw [runImages_char] at hmem
  obtain ⟨i, hi, rfl⟩ := List.mem_map.mp hmem
  have htid' : finalAssoc ts i.page_number i.associated_topic_id = some tid := htid
  rw [hinit i hi] at htid'
  rcases finalAssoc_some ts i.page_number none tid htid' with h | ⟨t, ht, h1, h2⟩
  · exact absurd h (by simp)
  · obtain ⟨ims₁, hk, hm⟩ := runTopics_mem t ts ims ht
    refine ⟨{ t with images := topicImageIds t ims₁ }, hm, h1, ?_⟩
    show i.image_id ∈ topicImageIds t ims₁
    have hkey : imgKey i ∈ ims₁.map imgKey := by
      rw [hk]
      exact List.mem_map_of_mem imgKey hi
    obtain ⟨k, hkmem, hkk⟩ := List.mem_map.mp hkey
    have hkid : k.image_id = i.image_id := congrArg Prod.fst hkk
    have hkpg : k.page_number = i.page_number := congrArg Prod.snd hkk
    rw [← hkid]
    exact mem_topicImageIds_of t hkmem (by rw [hkpg]; exact h2)

theorem topicImageIds_set_images (t : QuestionBlock) (xs : List String) :
    ∀ ims : List ExtractedImage,
      topicImageIds { t with images := xs } ims = topicImageIds t ims := by
  intro ims
  induction ims with
  | nil => rfl
  | cons a as ih =>
      show (if assocDecision { t with images := xs } a.page_number then
              a.image_id :: topicImageIds { t with images := xs } as
            else topicImageIds { t with images := xs } as) = _
      rw [ih]
      rfl

/-- Rerunning the topic pass on its own output changes nothing, for any image
list agreeing on ids and pages: the decisions are recomputed identically and
each `images` field is rebuilt to the same list. -/
theorem runTopics_stable :
    ∀ (ts : List QuestionBlock) (ims₀ ims₁ : List ExtractedImage),
      ims₁.map imgKey = ims₀.map imgKey →
      runTopics (runTopics ts ims₀) ims₁ = runTopics ts ims₀ := by
  intro ts
  induction ts with
  | nil => intro ims₀ ims₁ _; rfl
  | cons t ts ih =>
      intro ims₀ ims₁ hk
      show runTopics
          ({ t with images := topicImageIds t ims₀ } :: runTopics ts (ims₀.map (updImage t)))
          ims₁ = _
      rw [runTopics]
      congr 1
      · rw [topicImageIds_set_images t (topicImageIds t ims₀) ims₁,
          topicImageIds_congr t ims₁ ims₀ hk]
      · rw [ih (ims₀.map (updImage t)) (ims₁.map (updImage { t with images := topicImageIds t ims₀ }))
          (by rw [map_imgKey_upd, map_imgKey_upd, hk])]

theorem topicKey_runTopics (ts : List QuestionBlock) :
    ∀ ims : List ExtractedImage, (runTopics ts ims).map topicKey = ts.map topicKey := by
  induction ts with
  | nil => intro ims; rfl
  | cons t ts ih =>
      intro ims
      show topicKey { t with images := topicImageIds t ims } ::
          (runTopics ts (ims.map (updImage t))).map topicKey = _
      rw [ih]
      rfl

theorem assocDecision_topicKey {t₁ t₂ : QuestionBlock} (h : topicKey t₁ = topicKey t₂)
    (p : Int) : assocDecision t₁ p = assocDecision t₂ p := by
  have h2 : t₁.page_number = t₂.page_number := congrArg (fun k => k.2.1) h
  have h3 : t₁.content = t₂.content := congrArg (fun k => k.2.2) h
  unfold assocDecision
  rw [h2, h3]

theorem finalAssoc_congr :
    ∀ ts₁ ts₂ : List QuestionBlock, ts₁.map topicKey = ts₂.map topicKey →
      ∀ (p : Int) (a : Option String), finalAssoc ts₁ p a = finalAssoc ts₂ p a := by
  intro ts₁
  induction ts₁ with
  | nil =>
      intro ts₂ h p a
      cases ts₂ with
      | nil => rfl
      | cons b bs => simp at h
  | cons t ts ih =>
      intro ts₂ h p a
      cases ts₂ with
      | nil => simp at h
      | cons u us =>
          simp only [List.map_cons, List.cons.injEq] at h
          obtain ⟨h1, h2⟩ := h
          have h3 : t.topic_id = u.topic_id := congrArg Prod.fst h1
          rw [finalAssoc_cons, finalAssoc_cons, ih us h2,
            assocDecision_topicKey h1, h3]

theorem finalAssoc_idem (ts : List QuestionBlock) (p : Int) :
    ∀ a : Option String, finalAssoc ts p (finalAssoc ts p a) = finalAssoc ts p a := by
  induction ts with
  | nil => intro a; rfl
  | cons t ts ih =>
      intro a
      by_cases hd : assocDecision t p
      · simp only [finalAssoc_cons, if_pos hd]
      · simp only [finalAssoc_cons, if_neg hd]
        exact ih a

/-- Rerunning the image pass after a full run changes nothing: the last
firing topic is recomputed identically, and untouched images stay at their
already-final value. -/
theorem runImages_stable (ts : List QuestionBlock) (ims : List ExtractedImage) :
    runImages (runTopics ts ims) (runImages ts ims) = runImages ts ims := by
  rw [runImages_char (runTopics ts ims), runImages_char ts ims, List.map_map]
  have hfa : ∀ (p : Int) (a : Option String),
      finalAssoc (runTopics ts ims) p a = finalAssoc ts p a :=
    fun p a => finalAssoc_congr _ _ (topicKey_runTopics ts ims) p a
  have hfun :
      ((fun i : ExtractedImage =>
          { i with associated_topic_id :=
              finalAssoc (runTopics ts ims) i.page_number i.associated_topic_id }) ∘
        (fun i : ExtractedImage =>
          { i with associated_topic_id := finalAssoc ts i.page_number i.associated_topic_id })) =
      (fun i : ExtractedImage =>
          { i with associated_topic_id := finalAssoc ts i.page_number i.associated_topic_id }) := by
    funext i
    simp only [Function.comp_apply]
    rw [hfa, finalAssoc_idem]
  rw [hfun]

/-- Claim C10: the associator is idempotent — running it again on the state it
produced (the topics with rebuilt `images` lists and the mutated images)
reproduces exactly the same topics and images. -/
theorem associator_idempotent (ts : List QuestionBlock) (ims : List ExtractedImage) :
    associate_images_with_topics (associate_images_with_topics ts ims).1
        (associate_images_with_topics ts ims).2 =
      associate_images_with_topics ts ims := by
  rw [run_eq ts ims]
  rw [run_eq (runTopics ts ims) (runImages ts ims)]
  refine Prod.ext ?_ ?_
  · exact runTopics_stable ts ims (runImages ts ims) (runImages_key ts ims)
  · exact runImages_stable ts ims

/-! ### Concrete witnesses -/

/-- Witness topic for claim C1: page 5, content mentioning a visual keyword. -/
def c1Topic : QuestionBlock :=
  { question_type := "unknown", content := "A rash is shown on the arm", options := [],
    correct_answer := none, rationale := none, subject := none, page_number := 5,
    confidence_score := 0, images := [], topic_id := some ("topic_0001") }

/-- Witness image for claim C1: adjacent page 6. -/
def c1Image : ExtractedImage :=
  { image_id := "img_0001", filename := "img_0001.png", base64_data := "",
    element_type := "Image", page_number := 6, bbox := none, associated_topic_id := none }

/-- The topic C1's witness run produces: the adjacent-page image is associated
because the content mentions visuals. -/
def c1TopicOut : QuestionBlock := { c1Topic with images := ["img_0001"] }

/-- Claim C1, witness: the page-distance rule instantiated on one topic on
page 5 whose text mentions a rash and one image on page 6. -/
theorem associator_page_distance_rule_witness :
    (([c1Image].map ExtractedImage.image_id).Nodup ∧
      [c1Topic].get? 0 = some c1Topic ∧
      [c1Image].get? 0 = some c1Image ∧
      ((associate_images_with_topics [c1Topic] [c1Image]).1).get? 0 = some c1TopicOut) ∧
    ((pageDistance c1Image c1Topic = 0 → c1Image.image_id ∈ c1TopicOut.images) ∧
     (pageDistance c1Image c1Topic = 1 →
       (c1Image.image_id ∈ c1TopicOut.images ↔ topic_mentions_visuals c1Topic.content = true)) ∧
     (1 < pageDistance c1Image c1Topic → c1Image.image_id ∉ c1TopicOut.images)) :=
  ⟨⟨by decide, by decide, by decide, by decide⟩,
    associator_page_distance_rule [c1Topic] [c1Image] (by decide) 0 0 c1Topic c1TopicOut
      c1Image (by decide) (by decide) (by decide)⟩

/-- Witness topic for claim C2: page 5. -/
def c2Topic : QuestionBlock :=
  { question_type := "unknown", content := "Which of the following is correct", options := [],
    correct_answer := none, rationale := none, subject := none, page_number := 5,
    confidence_score := 0, images := [], topic_id := some ("topic_0001") }

/-- Witness image for claim C2: same page 5, unset association. -/
def c2Image : ExtractedImage :=
  { image_id := "img_0001", filename := "img_0001.png", base64_data := "",
    element_type := "Image", page_number := 5, bbox := none, associated_topic_id := none }

/-- Claim C2, witness: bidirectional consistency instantiated on a same-page
topic and image. -/
theorem associator_bidirectional_consistency_witness :
    (([c2Topic].map QuestionBlock.topic_id).Nodup ∧
      (∀ img ∈ [c2Image], img.associated_topic_id = none)) ∧
    (∀ img' ∈ (associate_images_with_topics [c2Topic] [c2Image]).2, ∀ tid : String,
      img'.associated_topic_id = some tid →
      ∃ t' ∈ (associate_images_with_topics [c2Topic] [c2Image]).1,
        t'.topic_id = some tid ∧ img'.image_id ∈ t'.images) :=
  ⟨⟨by decide, by decide⟩,
    associator_bidirectional_consistency [c2Topic] [c2Image] (by decide) (by decide)⟩

/-- Witness contour for claim C3: 150x150 box with contour area 9000
(fill ratio 0.4). -/
def c3Contour : Contour := { x := 0, y := 0, w := 150, h := 150, area := 9000 }

/-- Claim C3, witness: the filter-soundness theorem instantiated on a single
surviving contour. -/
theorem region_detector_filter_sound_witness :
    (∀ c ∈ [c3Contour], c.area ≤ ((c.w * c.h : ℕ) : ℚ)) ∧
    (∀ r ∈ detect_image_like_regions [c3Contour],
      100 ≤ r.w ∧ 100 ≤ r.h ∧
      max ((r.w : ℚ) / (r.h : ℚ)) ((r.h : ℚ) / (r.w : ℚ)) ≤ 10 ∧
      0 ≤ r.confidence ∧ r.confidence ≤ 1 ∧ (3/10 : ℚ) ≤ r.confidence) :=
  ⟨by decide, region_detector_filter_sound [c3Contour] (by decide)⟩
